import Mathlib

/-!
Shallow embedding of `src/main.rs` (rust-concurrency): an in-memory account
ledger (`Aptone`) that dispatches deposit/withdraw transactions to a fixed
pool of four worker threads, keyed by account affinity.

Embedding conventions:
* a Rust `HashMap<K, V>` is a function `K → Option V`; the source type
  aliases are mapped directly to Lean types: `AccountId = u32` and
  `TxCount = u32` become `Nat` (with explicit wrap-around where the source
  can overflow), `HandleId = i32` becomes `Int`;
* `u32` arithmetic is `Nat` with an explicit `% 2^32` at the points where the
  source can overflow (Rust release builds wrap there);
* a Rust panic is embedded as the `Except.error` constructor carrying a
  `Panic` value; at the system level a panicking thread poisons the shared
  mutex, which is the `poisoned` flag on `SysState` (once it is set, every
  later `lock().unwrap()` in the source panics, so no further step is
  enabled).
-/

def INVALID_HANDLE : Int := -1

def THREAD_COUNT : Nat := 4

/-- `2^32`; modulus of `u32` arithmetic. -/
def U32_MOD : Nat := 4294967296

/-- `TxCount::MAX = u32::MAX`, the initial `min_count` of `get_handle`. -/
def TXCOUNT_MAX : Nat := 4294967295

/-- Insertion into an embedded `HashMap` (`entry(k).or_insert`, `insert`). -/
def mapInsert {κ α : Type} [DecidableEq κ] (m : κ → Option α) (k : κ) (v : α) :
    κ → Option α :=
  fun x => if x = k then some v else m x

@[simp] theorem mapInsert_same {κ α : Type} [DecidableEq κ]
    (m : κ → Option α) (k : κ) (v : α) : mapInsert m k v k = some v := by
  simp [mapInsert]

theorem mapInsert_ne {κ α : Type} [DecidableEq κ]
    (m : κ → Option α) {x k : κ} (v : α) (h : x ≠ k) :
    mapInsert m k v x = m x := by
  simp [mapInsert, h]

theorem mapInsert_eval {κ α : Type} [DecidableEq κ]
    (m : κ → Option α) (k : κ) (v : α) (x : κ) :
    mapInsert m k v x = if x = k then some v else m x := rfl

/-- Update of an embedded total map (used for the queue vector). -/
def mapSet {κ α : Type} [DecidableEq κ] (m : κ → α) (k : κ) (v : α) : κ → α :=
  fun x => if x = k then v else m x

inductive TxType
  | DEPOSIT
  | WITHDRAW
deriving DecidableEq

structure Tx where
  account : Nat
  amount : Nat
  tx_type : TxType

inductive Message
  | NewTx (tx : Tx)
  | Terminate

/-- The distinct Rust panics of `src/main.rs`:
`balanceEntryMissing` = `"balance entry does not exist for account: {}"`,
`insufficientBalance` = `"Insufficient balance!"`,
`assertionFailed` = a failing `assert!`, `sendFailed` = `send(...).unwrap()`
on a channel whose receiver is gone. -/
inductive Panic
  | balanceEntryMissing
  | insufficientBalance
  | assertionFailed
  | sendFailed
deriving DecidableEq

/-- `struct ServerData` (lines 24-29): the mutex-guarded ledger state. -/
structure ServerData where
  pending_tx : Nat → Option Nat
  tx_count : Int → Option Nat
  handler : Nat → Option Int
  balances : Nat → Option Nat

/-- `ServerData::increase_pending_tx` (lines 48-52):
`entry(account).or_insert(0)` then `+= amount`, returning the new value. -/
def ServerData.increase_pending_tx (s : ServerData) (account : Nat)
    (amount : Nat) : Nat × ServerData :=
  (((s.pending_tx account).getD 0 + amount) % U32_MOD,
    { s with pending_tx := (mapInsert s.pending_tx account
        (((s.pending_tx account).getD 0 + amount) % U32_MOD)) })

/-- `ServerData::decrease_pending_tx` (lines 53-65): returns 0 and leaves the
map untouched when no entry exists; otherwise clamps at 0. -/
def ServerData.decrease_pending_tx (s : ServerData) (account : Nat)
    (amount : Nat) : Nat × ServerData :=
  match s.pending_tx account with
  | none => (0, s)
  | some pending =>
    if pending > amount then
      (pending - amount,
        { s with pending_tx := mapInsert s.pending_tx account (pending - amount) })
    else
      (0, { s with pending_tx := mapInsert s.pending_tx account 0 })

/-- `ServerData::get_pending_tx` (lines 66-71). -/
def ServerData.get_pending_tx (s : ServerData) (account : Nat) : Nat :=
  (s.pending_tx account).getD 0

/-- `ServerData::increase_tx_count` (lines 72-74). -/
def ServerData.increase_tx_count (s : ServerData) (handle_id : Int)
    (amount : Nat) : ServerData :=
  { s with tx_count := (mapInsert s.tx_count handle_id
      (((s.tx_count handle_id).getD 0 + amount) % U32_MOD)) }

/-- `ServerData::decrease_tx_count` (lines 75-86): no-op when no entry exists;
otherwise clamps at 0. -/
def ServerData.decrease_tx_count (s : ServerData) (handle_id : Int)
    (amount : Nat) : ServerData :=
  match s.tx_count handle_id with
  | none => s
  | some count =>
    if count > amount then
      { s with tx_count := mapInsert s.tx_count handle_id (count - amount) }
    else
      { s with tx_count := mapInsert s.tx_count handle_id 0 }

/-- The effective (defaulted-to-0) per-worker load; this is how `get_handle`
reads `tx_count` through `entry(id).or_insert(0)`. -/
def ServerData.effLoad (s : ServerData) (handle_id : Int) : Nat :=
  (s.tx_count handle_id).getD 0

/-- `ServerData::increase_balance` (lines 87-89). -/
def ServerData.increase_balance (s : ServerData) (account : Nat)
    (amount : Nat) : ServerData :=
  { s with balances := (mapInsert s.balances account
      (((s.balances account).getD 0 + amount) % U32_MOD)) }

/-- `ServerData::decrease_balance` (lines 90-103): panics (embedded as
`Except.error`) when the account has no balance entry or when
`balance < amount`; otherwise subtracts. -/
def ServerData.decrease_balance (s : ServerData) (account : Nat)
    (amount : Nat) : Except Panic ServerData :=
  match s.balances account with
  | none => Except.error Panic.balanceEntryMissing
  | some balance =>
    if balance < amount then Except.error Panic.insufficientBalance
    else Except.ok
      { s with balances := mapInsert s.balances account (balance - amount) }

/-- `ServerData::get_balance` (lines 104-111): 0 for unseen accounts. -/
def ServerData.get_balance (s : ServerData) (account : Nat) : Nat :=
  match s.balances account with
  | some x => x
  | none => 0

/-- `ServerData::set_handle` (lines 112-115): asserts
`handle_id == INVALID_HANDLE || handle_id >= 0`, then inserts. -/
def ServerData.set_handle (s : ServerData) (account : Nat)
    (handle_id : Int) : Except Panic ServerData :=
  if handle_id = INVALID_HANDLE ∨ 0 ≤ handle_id then
    Except.ok { s with handler := mapInsert s.handler account handle_id }
  else Except.error Panic.assertionFailed

/-- The effective (defaulted-to-`INVALID_HANDLE`) affinity of an account;
this is how `get_handle` reads `handler` through
`entry(account).or_insert(INVALID_HANDLE)`. -/
def ServerData.effHandler (s : ServerData) (account : Nat) : Int :=
  (s.handler account).getD INVALID_HANDLE

/-- The iteration domain of the scan in `get_handle`:
`for id in 0..THREAD_COUNT`, each `id as Int`. -/
def workerIds : List Int := (List.range THREAD_COUNT).map (fun i => (Int.ofNat i : Int))

/-- The `for id in 0..THREAD_COUNT` scan of `get_handle` (lines 124-131),
threading the running minimum `(hid, min_count)` and the state (the scan
inserts `or_insert(0)` entries as it reads them). -/
def ServerData.scan_workers : ServerData → Int → Nat → List Int →
    Int × ServerData
  | s, hid, _min_count, [] => (hid, s)
  | s, hid, min_count, id :: rest =>
    if (s.tx_count id).getD 0 < min_count then
      ServerData.scan_workers
        { s with tx_count := mapInsert s.tx_count id ((s.tx_count id).getD 0) }
        id ((s.tx_count id).getD 0) rest
    else
      ServerData.scan_workers
        { s with tx_count := mapInsert s.tx_count id ((s.tx_count id).getD 0) }
        hid min_count rest

/-- `ServerData::get_handle` (lines 116-135): returns the current affinity if
assigned, otherwise scans workers `0..THREAD_COUNT` for the least-loaded one
starting from `hid = INVALID_HANDLE`, `min_count = TxCount::MAX`, without
committing the choice. -/
def ServerData.get_handle (s : ServerData) (account : Nat) :
    Int × ServerData :=
  if (s.handler account).getD INVALID_HANDLE ≠ INVALID_HANDLE then
    ((s.handler account).getD INVALID_HANDLE,
      { s with handler := (mapInsert s.handler account
          ((s.handler account).getD INVALID_HANDLE)) })
  else
    ServerData.scan_workers
      { s with handler := (mapInsert s.handler account
          ((s.handler account).getD INVALID_HANDLE)) }
      INVALID_HANDLE TXCOUNT_MAX workerIds

/-- The empty ledger state built in `Aptone::new` (lines 185-198). -/
def initServerData : ServerData :=
  { pending_tx := fun _ => none, tx_count := fun _ => none,
    handler := fun _ => none, balances := fun _ => none }

/-- The system state: the shared ledger behind the mutex, the per-worker
message queues (`mpsc` channels of `Aptone::handles`), which workers have
exited their loop, and whether some thread has panicked (poisoning the
mutex: after that every `lock().unwrap()` panics, so nothing further runs). -/
structure SysState where
  data : ServerData
  queues : Int → List Message
  stopped : Int → Bool
  poisoned : Bool

/-- The state right after `Aptone::new` (lines 185-209): empty maps, empty
queues, all four workers running. -/
def initSys : SysState :=
  { data := initServerData, queues := fun _ => [],
    stopped := fun _ => false, poisoned := false }

/-- Tail of the worker loop body (lines 164-167): decrease the account's
pending count, release affinity when it hits 0, then decrease the worker's
own load count.  `d1` is the ledger state after the balance was applied. -/
def SysState.worker_finish (st : SysState) (id : Int) (account : Nat)
    (d1 : ServerData) : SysState :=
  match (if (d1.decrease_pending_tx account 1).1 = 0 then
      (d1.decrease_pending_tx account 1).2.set_handle account INVALID_HANDLE
    else Except.ok (d1.decrease_pending_tx account 1).2) with
  | Except.error _ => { st with poisoned := true }
  | Except.ok d3 => { st with data := d3.decrease_tx_count id 1 }

/-- One `Message::NewTx` iteration of the worker loop (lines 148-170): apply
the transaction under the lock, then settle the counters.  A failing
withdrawal panics inside `decrease_balance`, killing the worker thread while
it holds the lock: the mutex is poisoned and no counter is decremented. -/
def SysState.worker_process (st : SysState) (id : Int) (tx : Tx) : SysState :=
  match tx.tx_type with
  | TxType.DEPOSIT =>
    st.worker_finish id tx.account (st.data.increase_balance tx.account tx.amount)
  | TxType.WITHDRAW =>
    match st.data.decrease_balance tx.account tx.amount with
    | Except.error _ => { st with poisoned := true }
    | Except.ok d1 => st.worker_finish id tx.account d1

/-- `Aptone::handle_tx` (lines 210-237), one atomic critical section: resolve
the worker, re-affirm affinity, bump the pending and load counters, assert
the resolved id is valid, and send the transaction — the `MutexGuard` `data`
is only dropped when the function returns, i.e. after the send.  A failing
assert (or a send to a worker whose receiver is gone) panics while the lock
is held, poisoning it; the bookkeeping already performed stays in place. -/
def SysState.handle_tx (st : SysState) (account : Nat) (amount : Nat)
    (ty : TxType) : SysState :=
  match (st.data.get_handle account).2.set_handle account
      (st.data.get_handle account).1 with
  | Except.error _ =>
    { st with data := (st.data.get_handle account).2, poisoned := true }
  | Except.ok d2 =>
    if (st.data.get_handle account).1 = INVALID_HANDLE then
      { st with
        data := ((d2.increase_pending_tx account 1).2.increase_tx_count
          (st.data.get_handle account).1 1),
        poisoned := true }
    else if st.stopped (st.data.get_handle account).1 then
      { st with
        data := ((d2.increase_pending_tx account 1).2.increase_tx_count
          (st.data.get_handle account).1 1),
        poisoned := true }
    else
      { st with
        data := ((d2.increase_pending_tx account 1).2.increase_tx_count
          (st.data.get_handle account).1 1),
        queues := (mapSet st.queues (st.data.get_handle account).1
          (st.queues (st.data.get_handle account).1 ++
            [Message.NewTx { account := account, amount := amount, tx_type := ty }])) }

/-- `Aptone::get_balance` (lines 244-246): lock, then read. -/
def SysState.get_balance (st : SysState) (account : Nat) : Nat :=
  st.data.get_balance account

/-- The interleaving step relation of the dispatcher and worker threads.
Every lock acquisition in the source is `lock().unwrap()`, so once the mutex
is poisoned no thread gets past it: every step requires `poisoned = false`.
* `dispatch`: some caller runs `Aptone::handle_tx` to completion.
* `workTx`: a running worker receives the `NewTx` at the head of its queue
  and runs one loop iteration on it.
* `workTerminate`: a running worker receives `Terminate` and exits its loop
  (lines 171-174).
* `sendTerminate`: `Drop for Aptone` (lines 249-255) appends `Terminate` to
  one worker queue. -/
inductive Step : SysState → SysState → Prop
  | dispatch (st : SysState) (account : Nat) (amount : Nat) (ty : TxType) :
      st.poisoned = false → Step st (st.handle_tx account amount ty)
  | workTx (st : SysState) (id : Int) (tx : Tx) (rest : List Message) :
      st.poisoned = false → st.stopped id = false →
      st.queues id = Message.NewTx tx :: rest →
      Step st (SysState.worker_process { st with queues := mapSet st.queues id rest } id tx)
  | workTerminate (st : SysState) (id : Int) (rest : List Message) :
      st.poisoned = false → st.stopped id = false →
      st.queues id = Message.Terminate :: rest →
      Step st { st with queues := mapSet st.queues id rest, stopped := mapSet st.stopped id true }
  | sendTerminate (st : SysState) (id : Int) :
      st.poisoned = false →
      Step st { st with queues := (mapSet st.queues id
        (st.queues id ++ [Message.Terminate])) }

/-- States reachable from the freshly constructed system. -/
def Reachable (s : SysState) : Prop :=
  Relation.ReflTransGen Step initSys s

/-! ### Basic facts about the scan and the accessors -/

theorem workerIds_eq : workerIds = [0, 1, 2, 3] := by decide

theorem scan_workers_balances (l : List Int) :
    ∀ (s : ServerData) (hid : Int) (mc : Nat) (x : Nat),
      ((ServerData.scan_workers s hid mc l).2).balances x = s.balances x := by
  induction l with
  | nil => intro s hid mc x; rfl
  | cons id rest ih =>
    intro s hid mc x
    simp only [ServerData.scan_workers]
    split_ifs <;> exact ih _ _ _ x

theorem scan_workers_pending (l : List Int) :
    ∀ (s : ServerData) (hid : Int) (mc : Nat) (x : Nat),
      ((ServerData.scan_workers s hid mc l).2).pending_tx x = s.pending_tx x := by
  induction l with
  | nil => intro s hid mc x; rfl
  | cons id rest ih =>
    intro s hid mc x
    simp only [ServerData.scan_workers]
    split_ifs <;> exact ih _ _ _ x

theorem scan_workers_handler (l : List Int) :
    ∀ (s : ServerData) (hid : Int) (mc : Nat) (x : Nat),
      ((ServerData.scan_workers s hid mc l).2).handler x = s.handler x := by
  induction l with
  | nil => intro s hid mc x; rfl
  | cons id rest ih =>
    intro s hid mc x
    simp only [ServerData.scan_workers]
    split_ifs <;> exact ih _ _ _ x

theorem scan_workers_tx_count (l : List Int) :
    ∀ (s : ServerData) (hid : Int) (mc : Nat) (h : Int),
      ((ServerData.scan_workers s hid mc l).2).tx_count h =
        if h ∈ l then some ((s.tx_count h).getD 0) else s.tx_count h := by
  induction l with
  | nil => intro s hid mc h; simp [ServerData.scan_workers]
  | cons id rest ih =>
    intro s hid mc h
    simp only [ServerData.scan_workers]
    have key : ∀ (hid' : Int) (mc' : Nat),
        ((ServerData.scan_workers
          { s with tx_count := mapInsert s.tx_count id ((s.tx_count id).getD 0) }
          hid' mc' rest).2).tx_count h =
          if h ∈ id :: rest then some ((s.tx_count h).getD 0) else s.tx_count h := by
      intro hid' mc'
      rw [ih]
      by_cases hh : h = id
      · subst hh
        by_cases hr : h ∈ rest <;> simp [hr, mapInsert]
      · by_cases hr : h ∈ rest <;> simp [hr, hh, mapInsert, List.mem_cons]
    by_cases hc : (s.tx_count id).getD 0 < mc
    · rw [if_pos hc]; exact key _ _
    · rw [if_neg hc]; exact key _ _

theorem scan_workers_fst_mem (l : List Int) :
    ∀ (s : ServerData) (hid : Int) (mc : Nat),
      (ServerData.scan_workers s hid mc l).1 = hid ∨
        (ServerData.scan_workers s hid mc l).1 ∈ l := by
  induction l with
  | nil => intro s hid mc; left; rfl
  | cons id rest ih =>
    intro s hid mc
    simp only [ServerData.scan_workers]
    by_cases hc : (s.tx_count id).getD 0 < mc
    · rw [if_pos hc]
      rcases ih ({ s with tx_count := mapInsert s.tx_count id ((s.tx_count id).getD 0) })
        id ((s.tx_count id).getD 0) with h | h
      · exact Or.inr (by rw [h]; exact List.mem_cons_self _ _)
      · exact Or.inr (List.mem_cons_of_mem _ h)
    · rw [if_neg hc]
      rcases ih ({ s with tx_count := mapInsert s.tx_count id ((s.tx_count id).getD 0) })
        hid mc with h | h
      · exact Or.inl h
      · exact Or.inr (List.mem_cons_of_mem _ h)

theorem set_handle_ok {s : ServerData} {a : Nat} {h : Int} {d : ServerData}
    (hok : s.set_handle a h = Except.ok d) :
    d = { s with handler := mapInsert s.handler a h } := by
  unfold ServerData.set_handle at hok
  split_ifs at hok with hc
  · injection hok with h2
    exact h2.symm

theorem set_handle_invalid (s : ServerData) (a : Nat) :
    s.set_handle a INVALID_HANDLE =
      Except.ok { s with handler := mapInsert s.handler a INVALID_HANDLE } := by
  unfold ServerData.set_handle
  simp

theorem get_handle_balances (s : ServerData) (a : Nat) (x : Nat) :
    ((s.get_handle a).2).balances x = s.balances x := by
  unfold ServerData.get_handle
  by_cases hc : (s.handler a).getD INVALID_HANDLE ≠ INVALID_HANDLE
  · rw [if_pos hc]
  · rw [if_neg hc]; exact scan_workers_balances _ _ _ _ _

theorem get_handle_pending (s : ServerData) (a : Nat) (x : Nat) :
    ((s.get_handle a).2).pending_tx x = s.pending_tx x := by
  unfold ServerData.get_handle
  by_cases hc : (s.handler a).getD INVALID_HANDLE ≠ INVALID_HANDLE
  · rw [if_pos hc]
  · rw [if_neg hc]; exact scan_workers_pending _ _ _ _ _

theorem get_handle_handler (s : ServerData) (a : Nat) (x : Nat) :
    ((s.get_handle a).2).handler x =
      if x = a then some (s.effHandler a) else s.handler x := by
  unfold ServerData.get_handle
  by_cases hc : (s.handler a).getD INVALID_HANDLE ≠ INVALID_HANDLE
  · rw [if_pos hc]; rfl
  · rw [if_neg hc]; rw [scan_workers_handler]; rfl

theorem get_handle_effHandler (s : ServerData) (a : Nat) (x : Nat) :
    ((s.get_handle a).2).effHandler x = s.effHandler x := by
  unfold ServerData.effHandler
  rw [get_handle_handler]
  by_cases hx : x = a
  · subst hx; simp [ServerData.effHandler]
  · simp [hx]

theorem get_handle_fst_assigned (s : ServerData) (a : Nat)
    (h : s.effHandler a ≠ INVALID_HANDLE) :
    (s.get_handle a).1 = s.effHandler a := by
  unfold ServerData.get_handle
  by_cases hc : (s.handler a).getD INVALID_HANDLE ≠ INVALID_HANDLE
  · rw [if_pos hc]; rfl
  · exact absurd h (by simpa [ServerData.effHandler] using hc)

theorem get_handle_fst_unassigned (s : ServerData) (a : Nat)
    (h : s.effHandler a = INVALID_HANDLE) :
    (s.get_handle a).1 = INVALID_HANDLE ∨ (s.get_handle a).1 ∈ workerIds := by
  unfold ServerData.get_handle
  by_cases hc : (s.handler a).getD INVALID_HANDLE ≠ INVALID_HANDLE
  · exact absurd hc (by simp [ServerData.effHandler] at h; simp [h])
  · rw [if_neg hc]; exact scan_workers_fst_mem _ _ _ _

/-! ### Concrete example states used by witnesses and counterexamples -/

/-- A small ledger: account 1 has balance 5, one pending transaction, and is
pinned to worker 0, whose load count is 1. -/
def lowData : ServerData :=
  { pending_tx := mapInsert (fun _ => none) 1 1,
    tx_count := mapInsert (fun _ => none) 0 1,
    handler := mapInsert (fun _ => none) 1 0,
    balances := mapInsert (fun _ => none) 1 5 }

/-- `lowData` as the running system, with empty queues. -/
def lowSys : SysState :=
  { data := lowData, queues := fun _ => [], stopped := fun _ => false,
    poisoned := false }

/-- A ledger whose only balance entry, for account 0, is at the u32 maximum. -/
def maxBalData : ServerData :=
  { pending_tx := fun _ => none, tx_count := fun _ => none,
    handler := fun _ => none,
    balances := mapInsert (fun _ => none) 0 4294967295 }

/-- A ledger in which every worker carries load `TxCount::MAX = u32::MAX`. -/
def maxLoadData : ServerData :=
  { pending_tx := fun _ => none, tx_count := fun _ => some 4294967295,
    handler := fun _ => none, balances := fun _ => none }

/-! ### C6 -/

/-- C6 (confirmed): for every current count `p` and decrement `n`,
`decrease_pending_tx` (and `decrease_tx_count`) set the observable count to
`p - n` when `p > n` and clamp it to 0 otherwise — including when no entry
exists, in which case the observable count stays 0 — and, being total
functions into `ServerData` (no `Except`), they never raise an error. -/
theorem c6_saturating_decrements :
    ∀ (s : ServerData) (a : Nat) (w : Int) (n : Nat),
      (s.decrease_pending_tx a n).1 =
        (if n < s.get_pending_tx a then s.get_pending_tx a - n else 0) ∧
      ((s.decrease_pending_tx a n).2).get_pending_tx a =
        (if n < s.get_pending_tx a then s.get_pending_tx a - n else 0) ∧
      (s.decrease_tx_count w n).effLoad w =
        (if n < s.effLoad w then s.effLoad w - n else 0) := by
  intro s a w n
  refine ⟨?_, ?_, ?_⟩
  · cases hp : s.pending_tx a <;>
      simp [ServerData.decrease_pending_tx, ServerData.get_pending_tx, hp] <;>
      split_ifs <;> simp_all
  · cases hp : s.pending_tx a <;>
      simp [ServerData.decrease_pending_tx, ServerData.get_pending_tx, hp] <;>
      split_ifs <;> simp_all
  · cases hl : s.tx_count w <;>
      simp [ServerData.decrease_tx_count, ServerData.effLoad, hl] <;>
      split_ifs <;> simp_all

/-! ### C8 -/

/-- C8 (amended): `increase_balance` always succeeds (it is total) and sets
the account's balance to `(old + amount) % 2^32`, creating the entry from the
default 0 if absent and leaving every other map entry and field unchanged;
when `old + amount` stays below `2^32` this is plain addition, but when the
sum exceeds the u32 range the stored balance wraps instead of becoming the
mathematical sum. -/
theorem c8_increase_balance_amended :
    ∀ (s : ServerData) (a : Nat) (amt : Nat),
      (∀ x, (s.increase_balance a amt).balances x =
        (if x = a then some (((s.balances a).getD 0 + amt) % U32_MOD)
          else s.balances x)) ∧
      (∀ x, (s.increase_balance a amt).pending_tx x = s.pending_tx x) ∧
      (∀ w, (s.increase_balance a amt).tx_count w = s.tx_count w) ∧
      (∀ x, (s.increase_balance a amt).handler x = s.handler x) ∧
      ((s.balances a).getD 0 + amt < U32_MOD →
        (s.increase_balance a amt).get_balance a = (s.balances a).getD 0 + amt) := by
  intro s a amt
  refine ⟨fun x => rfl, fun x => rfl, fun w => rfl, fun x => rfl, fun h => ?_⟩
  simp [ServerData.increase_balance, ServerData.get_balance, Nat.mod_eq_of_lt h]

/-- Witness for C8: a concrete in-range deposit is plain addition. -/
theorem c8_witness :
    ServerData.get_balance (ServerData.increase_balance lowData 1 7) 1 =
      (lowData.balances 1).getD 0 + 7 :=
  (c8_increase_balance_amended lowData 1 7).2.2.2.2 (by decide)

/-- Counterexample for C8 as stated: depositing 1 on a balance of
`u32::MAX = 4294967295` yields 0, not the out-of-range sum 4294967296 — the
addition is not carried out beyond the unsigned integer range. -/
theorem c8_counterexample :
    (maxBalData.increase_balance 0 1).get_balance 0 = 0 ∧
      4294967295 + 1 ≠ (0 : Nat) := by
  exact ⟨rfl, by decide⟩

/-! ### C9 -/

/-- C9 (confirmed): an account with no balance entry reads as balance 0, not
an error, both through `ServerData::get_balance` and through the lock-taking
`Aptone::get_balance`; and the dispatcher (`handle_tx`) never touches
balances, so the read reflects only transactions already applied by workers. -/
theorem c9_unseen_account_zero_balance :
    (∀ (s : ServerData) (a : Nat), s.balances a = none → s.get_balance a = 0) ∧
    (∀ (st : SysState) (a : Nat), st.data.balances a = none →
      st.get_balance a = 0) ∧
    (∀ (st : SysState) (account : Nat) (amount : Nat) (ty : TxType)
      (x : Nat),
      (st.handle_tx account amount ty).data.balances x = st.data.balances x) := by
  refine ⟨?_, ?_, ?_⟩
  · intro s a h
    simp [ServerData.get_balance, h]
  · intro st a h
    simp [SysState.get_balance, ServerData.get_balance, h]
  · intro st account amount ty x
    unfold SysState.handle_tx
    cases hsh : ((st.data.get_handle account).2).set_handle account
        (st.data.get_handle account).1 with
    | error e => exact get_handle_balances _ _ _
    | ok d2 =>
      have hd2 := set_handle_ok hsh
      subst hd2
      split_ifs <;>
        simp [ServerData.increase_tx_count, ServerData.increase_pending_tx,
          get_handle_balances]

/-- Witness for C9 at concrete inputs. -/
theorem c9_witness :
    ServerData.get_balance initServerData 5 = 0 ∧
      SysState.get_balance initSys 5 = 0 :=
  ⟨c9_unseen_account_zero_balance.1 initServerData 5 rfl,
    c9_unseen_account_zero_balance.2.1 initSys 5 rfl⟩

/-! ### C1 -/

/-- C1 (amended): `decrease_balance` fails on exactly the conditions the claim
gives — `Insufficient balance!` iff a balance entry exists and is below the
amount, `balance entry does not exist` iff the account has no entry, and
otherwise it subtracts the amount — but both failures are Rust panics that
abort the worker thread (poisoning the shared mutex), not error results
surfaced to a caller. -/
theorem c1_decrease_balance_amended :
    ∀ (s : ServerData) (a : Nat) (amt : Nat),
      (s.decrease_balance a amt = Except.error Panic.insufficientBalance ↔
        ∃ b, s.balances a = some b ∧ b < amt) ∧
      (s.decrease_balance a amt = Except.error Panic.balanceEntryMissing ↔
        s.balances a = none) ∧
      (∀ b, s.balances a = some b → amt ≤ b →
        s.decrease_balance a amt =
          Except.ok { s with balances := mapInsert s.balances a (b - amt) }) := by
  intro s a amt
  refine ⟨?_, ?_, ?_⟩
  · cases hb : s.balances a with
    | none => simp [ServerData.decrease_balance, hb]
    | some b =>
      simp only [ServerData.decrease_balance, hb]
      split_ifs with h <;> simp [h]
  · cases hb : s.balances a with
    | none => simp [ServerData.decrease_balance, hb]
    | some b =>
      simp only [ServerData.decrease_balance, hb]
      split_ifs with h <;> simp
  · intro b hb hle
    simp [ServerData.decrease_balance, hb, Nat.not_lt.mpr hle]

/-- Witness for C1: a covered withdrawal of 3 from balance 5 succeeds and
stores 2. -/
theorem c1_witness :
    ServerData.decrease_balance lowData 1 3 =
      Except.ok { lowData with balances := mapInsert lowData.balances 1 (5 - 3) } :=
  (c1_decrease_balance_amended lowData 1 3).2.2 5 rfl (by decide)

/-- Counterexample for C1 as stated: withdrawing 10 from balance 5 does fail
on the claimed condition, but the failure is a panic that aborts the worker —
running one worker-loop iteration on that withdrawal leaves the system
poisoned (the thread died holding the lock) instead of returning an error
result and continuing. -/
theorem c1_counterexample :
    ServerData.decrease_balance lowData 1 10 =
        Except.error Panic.insufficientBalance ∧
      (SysState.worker_process lowSys 0
        { account := 1, amount := 10, tx_type := TxType.WITHDRAW }).poisoned = true ∧
      lowSys.poisoned = false :=
  ⟨rfl, rfl, rfl⟩

/-! ### C10 -/

/-- C10 (confirmed): `get_handle` is not a pure read: it always inserts an
`INVALID_HANDLE` affinity entry for the queried account when none exists
(re-inserting the current value otherwise), and, exactly when the account is
unassigned and it scans, it inserts a zero-initialised (or value-preserving)
load entry for every worker id in `[0, THREAD_COUNT)`; pending counts and
balances are unchanged everywhere, and so is `tx_count` outside the scan. -/
theorem c10_get_handle_frame :
    ∀ (s : ServerData) (a : Nat),
      (∀ x, ((s.get_handle a).2).handler x =
        (if x = a then some (s.effHandler a) else s.handler x)) ∧
      (∀ x, ((s.get_handle a).2).pending_tx x = s.pending_tx x) ∧
      (∀ x, ((s.get_handle a).2).balances x = s.balances x) ∧
      (∀ w, ((s.get_handle a).2).tx_count w =
        (if s.effHandler a = INVALID_HANDLE ∧ w ∈ workerIds
          then some ((s.tx_count w).getD 0) else s.tx_count w)) := by
  intro s a
  refine ⟨fun x => get_handle_handler s a x, fun x => get_handle_pending s a x,
    fun x => get_handle_balances s a x, fun w => ?_⟩
  unfold ServerData.get_handle
  by_cases hc : (s.handler a).getD INVALID_HANDLE ≠ INVALID_HANDLE
  · rw [if_pos hc]
    have hno : ¬ (s.effHandler a = INVALID_HANDLE ∧ w ∈ workerIds) := by
      intro hcon
      exact hc hcon.1
    rw [if_neg hno]
  · rw [if_neg hc]
    rw [scan_workers_tx_count]
    have he : s.effHandler a = INVALID_HANDLE := not_not.mp hc
    by_cases hw : w ∈ workerIds
    · simp [hw, he]
    · simp [hw, he]

/-! ### C5 -/

/-- Modelled from the spec's words, for the refinement comparison in C5:
"scan all WorkerIds and return the one with minimum WorkerLoad (ties broken
by lowest WorkerId)" — the lowest of the four worker ids attaining the
minimal effective load. -/
def minLoadWorker_spec (s : ServerData) : Nat :=
  if s.effLoad 0 ≤ s.effLoad 1 ∧ s.effLoad 0 ≤ s.effLoad 2 ∧ s.effLoad 0 ≤ s.effLoad 3 then 0
  else if s.effLoad 1 ≤ s.effLoad 2 ∧ s.effLoad 1 ≤ s.effLoad 3 then 1
  else if s.effLoad 2 ≤ s.effLoad 3 then 2
  else 3

/-- C5 (amended): `get_handle` returns the assigned worker when the account
has one; otherwise it returns the least-loaded worker id (ties to the lowest
id) — but only provided at least one of the four loads is below
`TxCount::MAX`; and it never commits the scanned choice as the account's
affinity (the affinity it stores back is the old, unassigned value). -/
theorem c5_get_handle_amended :
    ∀ (s : ServerData) (a : Nat),
      (s.effHandler a ≠ INVALID_HANDLE → (s.get_handle a).1 = s.effHandler a) ∧
      (s.effHandler a = INVALID_HANDLE →
        (s.effLoad 0 < TXCOUNT_MAX ∨ s.effLoad 1 < TXCOUNT_MAX ∨
          s.effLoad 2 < TXCOUNT_MAX ∨ s.effLoad 3 < TXCOUNT_MAX) →
        (s.get_handle a).1 = Int.ofNat (minLoadWorker_spec s)) ∧
      ((s.get_handle a).2.effHandler a = s.effHandler a) := by
  intro s a
  refine ⟨fun h => get_handle_fst_assigned s a h, fun he hlt => ?_,
    get_handle_effHandler s a a⟩
  have he' : (s.handler a).getD INVALID_HANDLE = INVALID_HANDLE := he
  unfold ServerData.get_handle
  rw [if_neg (by simp [he'])]
  rw [workerIds_eq]
  unfold minLoadWorker_spec
  unfold ServerData.effLoad at hlt ⊢
  unfold TXCOUNT_MAX at hlt ⊢
  simp [ServerData.scan_workers, mapInsert]
  split_ifs <;> simp <;> omega

/-- Witness for C5: on the fresh ledger every load is 0 and account 7 is
unassigned, so the scan returns the spec's least-loaded worker; and a pinned
account gets its assigned worker back. -/
theorem c5_witness :
    (initServerData.get_handle 7).1 = Int.ofNat (minLoadWorker_spec initServerData) ∧
      (lowData.get_handle 1).1 = lowData.effHandler 1 :=
  ⟨(c5_get_handle_amended initServerData 7).2.1 rfl (Or.inl (by decide)),
    (c5_get_handle_amended lowData 1).1 (by decide)⟩

/-- Counterexample for C5 as stated: with every worker load at `u32::MAX` and
the account unassigned, the strict `count < min_count` test never fires, so
`get_handle` returns the sentinel `INVALID_HANDLE = -1` — not a worker id in
`[0, THREAD_COUNT)`, and not the lowest worker attaining the minimum load
(which would be worker 0). -/
theorem c5_counterexample :
    maxLoadData.effHandler 0 = INVALID_HANDLE ∧
      (maxLoadData.get_handle 0).1 = INVALID_HANDLE ∧
      minLoadWorker_spec maxLoadData = 0 ∧
      INVALID_HANDLE < 0 :=
  ⟨rfl, by decide, by decide, by decide⟩

/-! ### C4 -/

/-- One worker apply (the `match tx_type` of lines 156-163): deposits via
`increase_balance`, withdrawals via `decrease_balance`. -/
def applyTx (d : ServerData) (tx : Tx) : Except Panic ServerData :=
  match tx.tx_type with
  | TxType.DEPOSIT => Except.ok (d.increase_balance tx.account tx.amount)
  | TxType.WITHDRAW => d.decrease_balance tx.account tx.amount

/-- Apply a list of transactions in submission order (the order a single
account's transactions reach its pinned worker), stopping at a panic. -/
def runTxs (d : ServerData) : List Tx → Except Panic ServerData
  | [] => Except.ok d
  | tx :: rest =>
    match applyTx d tx with
    | Except.error e => Except.error e
    | Except.ok d2 => runTxs d2 rest

/-- A single-account transaction list built from (kind, amount) pairs. -/
def txsFor (a : Nat) (seq : List (TxType × Nat)) : List Tx :=
  seq.map (fun p => { account := a, amount := p.2, tx_type := p.1 })

def sumDeposits : List (TxType × Nat) → Nat
  | [] => 0
  | (TxType.DEPOSIT, amt) :: rest => amt + sumDeposits rest
  | (TxType.WITHDRAW, _) :: rest => sumDeposits rest

def sumWithdrawals : List (TxType × Nat) → Nat
  | [] => 0
  | (TxType.DEPOSIT, _) :: rest => sumWithdrawals rest
  | (TxType.WITHDRAW, amt) :: rest => amt + sumWithdrawals rest

/-- No withdrawal exceeds the running balance, starting from `bal`. -/
def noOverdraft (bal : Nat) : List (TxType × Nat) → Bool
  | [] => true
  | (TxType.DEPOSIT, amt) :: rest => noOverdraft (bal + amt) rest
  | (TxType.WITHDRAW, amt) :: rest => decide (amt ≤ bal) && noOverdraft (bal - amt) rest

/-- Every withdrawal is preceded by at least one deposit; `seen` says whether
the account's balance entry already exists. -/
def entrySeen (seen : Bool) : List (TxType × Nat) → Bool
  | [] => true
  | (TxType.DEPOSIT, _) :: rest => entrySeen true rest
  | (TxType.WITHDRAW, _) :: rest => seen && entrySeen seen rest

theorem runTxs_balance (seq : List (TxType × Nat)) :
    ∀ (s : ServerData) (a : Nat) (b : Nat), s.balances a = some b →
      noOverdraft b seq = true → b + sumDeposits seq < U32_MOD →
      ∃ s2, runTxs s (txsFor a seq) = Except.ok s2 ∧
        s2.balances a = some (b + sumDeposits seq - sumWithdrawals seq) := by
  induction seq with
  | nil =>
    intro s a b hb _ _
    exact ⟨s, rfl, by simpa [sumDeposits, sumWithdrawals] using hb⟩
  | cons p rest ih =>
    obtain ⟨ty, amt⟩ := p
    intro s a b hb hno hlt
    cases ty with
    | DEPOSIT =>
      simp only [sumDeposits] at hlt
      simp only [noOverdraft] at hno
      have hbal : (ServerData.increase_balance s a amt).balances a = some (b + amt) := by
        simp [ServerData.increase_balance, hb, Nat.mod_eq_of_lt (show b + amt < U32_MOD by omega)]
      obtain ⟨s2, hrun, hs2⟩ := ih (s.increase_balance a amt) a (b + amt) hbal hno (by omega)
      refine ⟨s2, ?_, ?_⟩
      · simp only [txsFor, List.map_cons, runTxs, applyTx]
        simpa [txsFor] using hrun
      · rw [hs2]
        simp only [sumDeposits, sumWithdrawals]
        congr 1
        omega
    | WITHDRAW =>
      simp only [sumDeposits] at hlt
      simp only [noOverdraft, Bool.and_eq_true, decide_eq_true_eq] at hno
      obtain ⟨hge, hno2⟩ := hno
      have hdec : s.decrease_balance a amt =
          Except.ok { s with balances := mapInsert s.balances a (b - amt) } := by
        simp only [ServerData.decrease_balance, hb]
        rw [if_neg (Nat.not_lt.mpr hge)]
      have hbal : ({ s with balances := mapInsert s.balances a (b - amt) } :
          ServerData).balances a = some (b - amt) := by
        simp
      obtain ⟨s2, hrun, hs2⟩ :=
        ih _ a (b - amt) hbal hno2 (by omega)
      refine ⟨s2, ?_, ?_⟩
      · simp only [txsFor, List.map_cons, runTxs, applyTx]
        rw [hdec]
        simpa [txsFor] using hrun
      · rw [hs2]
        simp only [sumDeposits, sumWithdrawals]
        congr 1
        omega

/-- C4 (amended): for every finite single-account sequence of deposits and
withdrawals in which every withdrawal is preceded by at least one deposit
(so the balance entry exists when a withdrawal is applied), no withdrawal
exceeds the running balance, and the total deposited stays below `2^32`,
applying the sequence in submission order from the fresh ledger succeeds and
yields final balance = sum of deposits − sum of withdrawals. -/
theorem c4_single_account_sum_amended :
    ∀ (a : Nat) (seq : List (TxType × Nat)),
      entrySeen false seq = true → noOverdraft 0 seq = true →
      sumDeposits seq < U32_MOD →
      ∃ s2, runTxs initServerData (txsFor a seq) = Except.ok s2 ∧
        s2.get_balance a = sumDeposits seq - sumWithdrawals seq := by
  intro a seq hseen hno hlt
  cases seq with
  | nil => exact ⟨initServerData, rfl, rfl⟩
  | cons p rest =>
    obtain ⟨ty, amt⟩ := p
    cases ty with
    | WITHDRAW => simp [entrySeen] at hseen
    | DEPOSIT =>
      simp only [sumDeposits] at hlt
      simp only [noOverdraft, Nat.zero_add] at hno
      have hbal : (ServerData.increase_balance initServerData a amt).balances a =
          some amt := by
        simp [ServerData.increase_balance, initServerData,
          Nat.mod_eq_of_lt (show amt < U32_MOD by omega)]
      obtain ⟨s2, hrun, hs2⟩ := runTxs_balance rest
        (initServerData.increase_balance a amt) a amt hbal hno (by omega)
      refine ⟨s2, ?_, ?_⟩
      · simp only [txsFor, List.map_cons, runTxs, applyTx]
        simpa [txsFor] using hrun
      · simp only [ServerData.get_balance, hs2, sumDeposits, sumWithdrawals]

/-- Witness for C4: deposit 500 then withdraw 300 ends at balance 200. -/
theorem c4_witness :
    ∃ s2, runTxs initServerData
        (txsFor 1 [(TxType.DEPOSIT, 500), (TxType.WITHDRAW, 300)]) =
          Except.ok s2 ∧
      s2.get_balance 1 =
        sumDeposits [(TxType.DEPOSIT, 500), (TxType.WITHDRAW, 300)] -
          sumWithdrawals [(TxType.DEPOSIT, 500), (TxType.WITHDRAW, 300)] :=
  c4_single_account_sum_amended 1 [(TxType.DEPOSIT, 500), (TxType.WITHDRAW, 300)]
    (by decide) (by decide) (by decide)

/-- Counterexample for C4 as stated: the sequence consisting of the single
transaction "withdraw 0" never exceeds the running balance (0 ≤ 0), yet
applying it from the fresh ledger does not yield the balance
0 = deposits − withdrawals: `decrease_balance` panics because the account
has no balance entry. -/
theorem c4_counterexample :
    noOverdraft 0 [(TxType.WITHDRAW, 0)] = true ∧
      runTxs initServerData (txsFor 7 [(TxType.WITHDRAW, 0)]) =
        Except.error Panic.balanceEntryMissing :=
  ⟨by decide, rfl⟩

/-! ### C2 -/

/-- A poisoned system makes no further step: every step requires
`poisoned = false`, mirroring that every lock acquisition in the source is
`lock().unwrap()` on the poisoned mutex. -/
theorem no_step_of_poisoned {s : SysState} (h : s.poisoned = true) :
    ∀ s2, ¬ Step s s2 := by
  intro s2 hstep
  cases hstep <;> simp_all

/-- C2 (amended): when a worker's apply of a withdraw transaction fails, the
worker thread panics inside `decrease_balance`: the balance is left
unchanged, but — contrary to the claim — the account's pending count and the
worker's load count are NOT decremented (the panic fires before the counter
updates), the ledger state is entirely untouched, the mutex is poisoned, and
no thread makes any further step: the worker does not continue processing
subsequent messages. -/
theorem c2_worker_withdraw_failure_amended :
    ∀ (st : SysState) (id : Int) (tx : Tx) (e : Panic),
      tx.tx_type = TxType.WITHDRAW →
      st.data.decrease_balance tx.account tx.amount = Except.error e →
      SysState.worker_process st id tx = { st with poisoned := true } ∧
      (SysState.worker_process st id tx).data = st.data ∧
      (∀ s2, ¬ Step (SysState.worker_process st id tx) s2) := by
  intro st id tx e hty herr
  obtain ⟨acc, amt, ty⟩ := tx
  simp only at hty herr
  subst hty
  have hwp : SysState.worker_process st id
      { account := acc, amount := amt, tx_type := TxType.WITHDRAW } =
      { st with poisoned := true } := by
    simp only [SysState.worker_process, herr]
  refine ⟨hwp, by rw [hwp], fun s2 => no_step_of_poisoned (by rw [hwp]) s2⟩

/-- Witness for C2 (amended) at a concrete failing withdrawal. -/
theorem c2_witness :
    SysState.worker_process lowSys 0
        { account := 1, amount := 10, tx_type := TxType.WITHDRAW } =
      { lowSys with poisoned := true } :=
  (c2_worker_withdraw_failure_amended lowSys 0
    { account := 1, amount := 10, tx_type := TxType.WITHDRAW }
    Panic.insufficientBalance rfl rfl).1

/-- Counterexample for C2 as stated: in `lowSys` account 1 has balance 5,
pending count 1 and worker 0 has load 1; processing the failing withdrawal
of 10 leaves pending at 1 (not decremented to 0), load at 1 (not
decremented to 0), and poisons the system — the worker is dead, it does not
continue with subsequent messages. -/
theorem c2_counterexample :
    ((SysState.worker_process lowSys 0
        { account := 1, amount := 10, tx_type := TxType.WITHDRAW }).data.get_pending_tx 1
      = 1) ∧
      ((SysState.worker_process lowSys 0
        { account := 1, amount := 10, tx_type := TxType.WITHDRAW }).data.effLoad 0 = 1) ∧
      ((SysState.worker_process lowSys 0
        { account := 1, amount := 10, tx_type := TxType.WITHDRAW }).poisoned = true) :=
  ⟨rfl, rfl, rfl⟩

/-! ### C7 -/

/-- The straight-line event order of one `Aptone::handle_tx` call
(lines 210-237).  The `MutexGuard` bound to `data` at line 211 is dropped
only when the function returns (there is no earlier `drop`), so the lock
release is the final event — after the queue send of lines 229-236. -/
inductive DispatchEvent
  | lockAcquire
  | resolveWorker
  | setAffinity
  | incPending
  | incLoad
  | queueSend
  | lockRelease
deriving DecidableEq, BEq

/-- The events of `handle_tx` in source order. -/
def handleTxEvents : List DispatchEvent :=
  [DispatchEvent.lockAcquire, DispatchEvent.resolveWorker,
    DispatchEvent.setAffinity, DispatchEvent.incPending, DispatchEvent.incLoad,
    DispatchEvent.queueSend, DispatchEvent.lockRelease]

/-- Counterexample for C7 as stated: in `handle_tx` the lock release does not
precede the queue send — the guard is still held when the send runs. -/
theorem c7_counterexample :
    ¬ handleTxEvents.indexOf DispatchEvent.lockRelease <
        handleTxEvents.indexOf DispatchEvent.queueSend := by decide

/-- C7 (amended): the bookkeeping (resolve, set affinity, bump pending, bump
load) happens before the queue send, but the send happens INSIDE the critical
section: the lock is released only when `handle_tx` returns, strictly after
the send, which is the second-to-last event. -/
theorem c7_lock_held_through_send_amended :
    handleTxEvents.indexOf DispatchEvent.incLoad <
        handleTxEvents.indexOf DispatchEvent.queueSend ∧
      handleTxEvents.indexOf DispatchEvent.queueSend <
        handleTxEvents.indexOf DispatchEvent.lockRelease ∧
      handleTxEvents.getLast? = some DispatchEvent.lockRelease := by decide

/-! ### C3: frame lemmas for the counter operations -/

theorem decrease_pending_fst (s : ServerData) (a : Nat) (n : Nat) :
    (s.decrease_pending_tx a n).1 =
      (if n < s.get_pending_tx a then s.get_pending_tx a - n else 0) := by
  cases hp : s.pending_tx a with
  | none => simp [ServerData.decrease_pending_tx, ServerData.get_pending_tx, hp]
  | some p =>
    simp only [ServerData.decrease_pending_tx, ServerData.get_pending_tx, hp,
      Option.getD_some]
    split_ifs <;> simp_all <;> omega

theorem decrease_pending_self (s : ServerData) (a : Nat) (n : Nat) :
    ((s.decrease_pending_tx a n).2).get_pending_tx a = (s.decrease_pending_tx a n).1 := by
  cases hp : s.pending_tx a with
  | none => simp [ServerData.decrease_pending_tx, ServerData.get_pending_tx, hp]
  | some p =>
    simp only [ServerData.decrease_pending_tx, ServerData.get_pending_tx, hp]
    split_ifs <;> simp

theorem decrease_pending_other (s : ServerData) (a : Nat) (n : Nat) (x : Nat)
    (hx : x ≠ a) : ((s.decrease_pending_tx a n).2).pending_tx x = s.pending_tx x := by
  cases hp : s.pending_tx a with
  | none => simp [ServerData.decrease_pending_tx, hp]
  | some p =>
    simp only [ServerData.decrease_pending_tx, hp]
    split_ifs <;> simp [mapInsert, hx]

theorem decrease_pending_handler (s : ServerData) (a : Nat) (n : Nat) (x : Nat) :
    ((s.decrease_pending_tx a n).2).handler x = s.handler x := by
  cases hp : s.pending_tx a with
  | none => simp [ServerData.decrease_pending_tx, hp]
  | some p =>
    simp only [ServerData.decrease_pending_tx, hp]
    split_ifs <;> rfl

theorem decrease_tx_count_pending (s : ServerData) (w : Int) (n : Nat) (x : Nat) :
    (s.decrease_tx_count w n).pending_tx x = s.pending_tx x := by
  cases htc : s.tx_count w with
  | none => simp [ServerData.decrease_tx_count, htc]
  | some c =>
    simp only [ServerData.decrease_tx_count, htc]
    split_ifs <;> rfl

theorem decrease_tx_count_handler (s : ServerData) (w : Int) (n : Nat) (x : Nat) :
    (s.decrease_tx_count w n).handler x = s.handler x := by
  cases htc : s.tx_count w with
  | none => simp [ServerData.decrease_tx_count, htc]
  | some c =>
    simp only [ServerData.decrease_tx_count, htc]
    split_ifs <;> rfl

theorem decrease_balance_ok_frame {s d : ServerData} {a amt : Nat}
    (h : s.decrease_balance a amt = Except.ok d) :
    (∀ x, d.pending_tx x = s.pending_tx x) ∧ (∀ x, d.handler x = s.handler x) := by
  cases hb : s.balances a with
  | none =>
    simp only [ServerData.decrease_balance, hb] at h
    exact Except.noConfusion h
  | some b =>
    simp only [ServerData.decrease_balance, hb] at h
    split_ifs at h with hlt
    injection h with h2
    subst h2
    exact ⟨fun x => rfl, fun x => rfl⟩

/-! ### C3: the worker loop tail -/

theorem worker_finish_eq (st : SysState) (id : Int) (account : Nat) (d1 : ServerData) :
    SysState.worker_finish st id account d1 =
      { st with data := (ServerData.decrease_tx_count
          (if (d1.decrease_pending_tx account 1).1 = 0 then
            { (d1.decrease_pending_tx account 1).2 with
              handler := (mapInsert (d1.decrease_pending_tx account 1).2.handler
                account INVALID_HANDLE) }
          else (d1.decrease_pending_tx account 1).2) id 1) } := by
  unfold SysState.worker_finish
  by_cases hr : (d1.decrease_pending_tx account 1).1 = 0
  · rw [if_pos hr, if_pos hr, set_handle_invalid]
  · rw [if_neg hr, if_neg hr]

theorem worker_finish_poisoned (st : SysState) (id : Int) (account : Nat)
    (d1 : ServerData) :
    (SysState.worker_finish st id account d1).poisoned = st.poisoned := by
  rw [worker_finish_eq]

theorem worker_finish_pending_self (st : SysState) (id : Int) (account : Nat)
    (d1 : ServerData) :
    (SysState.worker_finish st id account d1).data.get_pending_tx account =
      (d1.decrease_pending_tx account 1).1 := by
  rw [worker_finish_eq]
  show (ServerData.decrease_tx_count _ id 1).get_pending_tx account = _
  unfold ServerData.get_pending_tx
  rw [decrease_tx_count_pending]
  split_ifs with hr
  · show ((d1.decrease_pending_tx account 1).2).get_pending_tx account = _
    rw [decrease_pending_self]
  · show ((d1.decrease_pending_tx account 1).2).get_pending_tx account = _
    rw [decrease_pending_self]

theorem worker_finish_pending_other (st : SysState) (id : Int) (account : Nat)
    (d1 : ServerData) (x : Nat) (hx : x ≠ account) :
    (SysState.worker_finish st id account d1).data.pending_tx x = d1.pending_tx x := by
  rw [worker_finish_eq]
  show (ServerData.decrease_tx_count _ id 1).pending_tx x = _
  rw [decrease_tx_count_pending]
  split_ifs with hr
  · exact decrease_pending_other d1 account 1 x hx
  · exact decrease_pending_other d1 account 1 x hx

theorem worker_finish_handler_self (st : SysState) (id : Int) (account : Nat)
    (d1 : ServerData) :
    (SysState.worker_finish st id account d1).data.effHandler account =
      (if (d1.decrease_pending_tx account 1).1 = 0 then INVALID_HANDLE
        else d1.effHandler account) := by
  rw [worker_finish_eq]
  show (ServerData.decrease_tx_count _ id 1).effHandler account = _
  unfold ServerData.effHandler
  rw [decrease_tx_count_handler]
  split_ifs with hr
  · simp
  · rw [decrease_pending_handler]

theorem worker_finish_handler_other (st : SysState) (id : Int) (account : Nat)
    (d1 : ServerData) (x : Nat) (hx : x ≠ account) :
    (SysState.worker_finish st id account d1).data.effHandler x = d1.effHandler x := by
  rw [worker_finish_eq]
  show (ServerData.decrease_tx_count _ id 1).effHandler x = _
  unfold ServerData.effHandler
  rw [decrease_tx_count_handler]
  split_ifs with hr
  · show (mapInsert ((d1.decrease_pending_tx account 1).2).handler account
      INVALID_HANDLE x).getD INVALID_HANDLE = _
    rw [mapInsert_ne _ _ hx, decrease_pending_handler]
  · rw [decrease_pending_handler]

/-- Every run of the worker body on a transaction is either the panic of a
failing withdrawal (state unchanged, mutex poisoned) or a successful apply
`d1` of the balance update — which touches neither pending counts nor
affinities — followed by `worker_finish`. -/
theorem worker_process_cases (st : SysState) (id : Int) (tx : Tx) :
    SysState.worker_process st id tx = { st with poisoned := true } ∨
    (∃ d1 : ServerData,
      (∀ x, d1.pending_tx x = st.data.pending_tx x) ∧
      (∀ x, d1.handler x = st.data.handler x) ∧
      SysState.worker_process st id tx = SysState.worker_finish st id tx.account d1) := by
  obtain ⟨acc, amt, ty⟩ := tx
  cases ty with
  | DEPOSIT =>
    right
    exact ⟨st.data.increase_balance acc amt, fun x => rfl, fun x => rfl, rfl⟩
  | WITHDRAW =>
    cases hdb : st.data.decrease_balance acc amt with
    | error e =>
      left
      simp only [SysState.worker_process, hdb]
    | ok d1 =>
      right
      obtain ⟨hp, hh⟩ := decrease_balance_ok_frame hdb
      refine ⟨d1, hp, hh, ?_⟩
      simp only [SysState.worker_process, hdb]

/-! ### C3: the dispatcher -/

theorem handle_tx_not_poisoned (st : SysState) (account amount : Nat) (ty : TxType)
    (hpo : (st.handle_tx account amount ty).poisoned = false) :
    st.poisoned = false ∧
    (st.data.get_handle account).1 ≠ INVALID_HANDLE ∧
    (∀ x, (st.handle_tx account amount ty).data.handler x =
      (if x = account then some (st.data.get_handle account).1
        else st.data.handler x)) ∧
    (∀ x, (st.handle_tx account amount ty).data.pending_tx x =
      (if x = account then some ((st.data.get_pending_tx account + 1) % U32_MOD)
        else st.data.pending_tx x)) := by
  cases hsh : ((st.data.get_handle account).2).set_handle account
      (st.data.get_handle account).1 with
  | error e =>
    exfalso
    simp only [SysState.handle_tx, hsh] at hpo
    exact Bool.noConfusion hpo
  | ok d2 =>
    have hd2 := set_handle_ok hsh
    subst hd2
    simp only [SysState.handle_tx, hsh] at hpo ⊢
    by_cases hid : (st.data.get_handle account).1 = INVALID_HANDLE
    · rw [if_pos hid] at hpo
      simp at hpo
    · rw [if_neg hid] at hpo ⊢
      by_cases hstop : st.stopped (st.data.get_handle account).1
      · rw [if_pos hstop] at hpo
        simp at hpo
      · rw [if_neg hstop] at hpo ⊢
        refine ⟨hpo, hid, fun x => ?_, fun x => ?_⟩
        · show (mapInsert ((st.data.get_handle account).2).handler account
            (st.data.get_handle account).1) x = _
          by_cases hx : x = account
          · subst hx
            simp [mapInsert]
          · rw [mapInsert_ne _ _ hx, get_handle_handler, if_neg hx, if_neg hx]
        · show (mapInsert ((st.data.get_handle account).2).pending_tx account
            (((((st.data.get_handle account).2).pending_tx account).getD 0 + 1)
              % U32_MOD)) x = _
          by_cases hx : x = account
          · subst hx
            rw [get_handle_pending]
            simp [mapInsert, ServerData.get_pending_tx]
          · rw [mapInsert_ne _ _ hx, get_handle_pending, if_neg hx]

theorem handle_tx_handler_eff (st : SysState) (account amount : Nat) (ty : TxType)
    (x : Nat) :
    (st.handle_tx account amount ty).data.effHandler x = st.data.effHandler x ∨
    (x = account ∧ st.data.effHandler account = INVALID_HANDLE ∧
      (st.handle_tx account amount ty).data.effHandler x =
        (st.data.get_handle account).1) := by
  cases hsh : ((st.data.get_handle account).2).set_handle account
      (st.data.get_handle account).1 with
  | error e =>
    left
    simp only [SysState.handle_tx, hsh]
    exact get_handle_effHandler st.data account x
  | ok d2 =>
    have hd2 := set_handle_ok hsh
    subst hd2
    simp only [SysState.handle_tx, hsh]
    have hcore : ∀ d4 : ServerData,
        (∀ y, d4.handler y = (mapInsert ((st.data.get_handle account).2).handler
          account (st.data.get_handle account).1) y) →
        d4.effHandler x = st.data.effHandler x ∨
        (x = account ∧ st.data.effHandler account = INVALID_HANDLE ∧
          d4.effHandler x = (st.data.get_handle account).1) := by
      intro d4 hh
      unfold ServerData.effHandler
      rw [hh x]
      by_cases hx : x = account
      · subst hx
        rw [mapInsert_same]
        by_cases he : st.data.effHandler x = INVALID_HANDLE
        · right
          exact ⟨rfl, he, rfl⟩
        · left
          rw [get_handle_fst_assigned st.data x he]
          rfl
      · left
        rw [mapInsert_ne _ _ hx, get_handle_handler, if_neg hx]
    split_ifs with hid hstop
    · exact hcore _ (fun y => rfl)
    · exact hcore _ (fun y => rfl)
    · exact hcore _ (fun y => rfl)

theorem handle_tx_pending_other (st : SysState) (account amount : Nat) (ty : TxType)
    (x : Nat) (hx : x ≠ account) :
    (st.handle_tx account amount ty).data.pending_tx x = st.data.pending_tx x := by
  cases hsh : ((st.data.get_handle account).2).set_handle account
      (st.data.get_handle account).1 with
  | error e =>
    simp only [SysState.handle_tx, hsh]
    exact get_handle_pending st.data account x
  | ok d2 =>
    have hd2 := set_handle_ok hsh
    subst hd2
    simp only [SysState.handle_tx, hsh]
    have hcore : (mapInsert ((st.data.get_handle account).2).pending_tx account
        (((((st.data.get_handle account).2).pending_tx account).getD 0 + 1)
          % U32_MOD)) x = st.data.pending_tx x := by
      rw [mapInsert_ne _ _ hx, get_handle_pending]
    split_ifs with hid hstop
    · exact hcore
    · exact hcore
    · exact hcore

/-! ### C3: the inductive invariant and the theorem -/

/-- The key inductive invariant: in a live (unpoisoned) state, an unassigned
account has pending count 0. -/
def HandlerPendingInv (s : SysState) : Prop :=
  s.poisoned = false → ∀ a, s.data.effHandler a = INVALID_HANDLE →
    s.data.get_pending_tx a = 0

theorem init_inv : HandlerPendingInv initSys := fun _ _ _ => rfl

theorem step_preserves_inv {s s2 : SysState} (hinv : HandlerPendingInv s)
    (hstep : Step s s2) : HandlerPendingInv s2 := by
  cases hstep with
  | dispatch account amount ty hpo =>
    intro hpo2 a ha
    obtain ⟨hstpo, hid, hhand, hpend⟩ := handle_tx_not_poisoned s account amount ty hpo2
    by_cases hx : a = account
    · subst hx
      exfalso
      apply hid
      unfold ServerData.effHandler at ha
      rw [hhand a, if_pos rfl] at ha
      simpa using ha
    · unfold ServerData.effHandler at ha
      rw [hhand a, if_neg hx] at ha
      unfold ServerData.get_pending_tx
      rw [hpend a, if_neg hx]
      exact hinv hstpo a ha
  | workTx id tx rest hpo hstop hq =>
    intro hpo2 a ha
    rcases worker_process_cases { s with queues := mapSet s.queues id rest } id tx
      with hcase | ⟨d1, hdp, hdh, heq⟩
    · rw [hcase] at hpo2
      simp at hpo2
    · rw [heq] at ha hpo2 ⊢
      by_cases hx : a = tx.account
      · subst hx
        rw [worker_finish_pending_self]
        by_cases hr : (d1.decrease_pending_tx tx.account 1).1 = 0
        · exact hr
        · exfalso
          rw [worker_finish_handler_self, if_neg hr] at ha
          have ha2 : s.data.effHandler tx.account = INVALID_HANDLE := by
            unfold ServerData.effHandler at ha ⊢
            rw [← hdh tx.account]
            exact ha
          have hp0 : s.data.get_pending_tx tx.account = 0 := hinv hpo tx.account ha2
          apply hr
          rw [decrease_pending_fst]
          have hd1p : d1.get_pending_tx tx.account = 0 := by
            unfold ServerData.get_pending_tx at hp0 ⊢
            rw [hdp]
            exact hp0
          rw [hd1p]
          simp
      · rw [worker_finish_handler_other _ _ _ _ a hx] at ha
        have ha2 : s.data.effHandler a = INVALID_HANDLE := by
          unfold ServerData.effHandler at ha ⊢
          rw [← hdh a]
          exact ha
        unfold ServerData.get_pending_tx
        rw [worker_finish_pending_other _ _ _ _ a hx, hdp a]
        exact hinv hpo a ha2
  | workTerminate id rest hpo hstop hq =>
    intro _ a ha
    exact hinv hpo a ha
  | sendTerminate id hpo =>
    intro _ a ha
    exact hinv hpo a ha

theorem reachable_inv {s : SysState} (h : Reachable s) : HandlerPendingInv s := by
  unfold Reachable at h
  induction h with
  | refl => exact init_inv
  | tail hsteps hstep ih => exact step_preserves_inv ih hstep

/-- C3 (confirmed): along any step out of a reachable state, an account's
effective affinity changes value only when that account's pending count is 0
on one side of the step (0 before a dispatcher assignment; 0 after a worker
release); and affinity is released — changed from an assigned worker to the
`INVALID_HANDLE` sentinel — only by a worker consuming a queued transaction
of that very account whose `decrease_pending_tx(account, 1)` returned 0
(equivalently, whose resulting pending count is 0), never by the dispatcher
or by termination handling. -/
theorem c3_affinity_release_invariant :
    ∀ (s s2 : SysState), Reachable s → Step s s2 → ∀ (a : Nat),
      (s2.data.effHandler a ≠ s.data.effHandler a →
        s.data.get_pending_tx a = 0 ∨ s2.data.get_pending_tx a = 0) ∧
      (s.data.effHandler a ≠ INVALID_HANDLE →
        s2.data.effHandler a = INVALID_HANDLE →
        ∃ id tx rest, s.queues id = Message.NewTx tx :: rest ∧ tx.account = a ∧
          s2.data.get_pending_tx a = 0) := by
  intro s s2 hreach hstep a
  have hinv := reachable_inv hreach
  cases hstep with
  | dispatch account amount ty hpo =>
    constructor
    · intro hch
      rcases handle_tx_handler_eff s account amount ty a with hsame | ⟨hx, he, _⟩
      · exact absurd hsame hch
      · subst hx
        left
        exact hinv hpo a he
    · intro hne h2
      rcases handle_tx_handler_eff s account amount ty a with hsame | ⟨hx, he, _⟩
      · rw [hsame] at h2
        exact absurd h2 hne
      · subst hx
        exact absurd he hne
  | workTx id tx rest hpo hstop hq =>
    rcases worker_process_cases { s with queues := mapSet s.queues id rest } id tx
      with hcase | ⟨d1, hdp, hdh, heq⟩
    · rw [hcase]
      exact ⟨fun hch => absurd rfl hch, fun hne h2 => absurd h2 hne⟩
    · rw [heq]
      by_cases hx : a = tx.account
      · subst hx
        by_cases hr : (d1.decrease_pending_tx tx.account 1).1 = 0
        · constructor
          · intro _
            right
            rw [worker_finish_pending_self, hr]
          · intro hne h2
            exact ⟨id, tx, rest, hq, rfl, by rw [worker_finish_pending_self, hr]⟩
        · have hsame : (SysState.worker_finish
              { s with queues := mapSet s.queues id rest } id tx.account
              d1).data.effHandler tx.account = s.data.effHandler tx.account := by
            rw [worker_finish_handler_self, if_neg hr]
            unfold ServerData.effHandler
            rw [hdh tx.account]
          constructor
          · intro hch
            exact absurd hsame hch
          · intro hne h2
            rw [hsame] at h2
            exact absurd h2 hne
      · have hsame : (SysState.worker_finish
            { s with queues := mapSet s.queues id rest } id tx.account
            d1).data.effHandler a = s.data.effHandler a := by
          rw [worker_finish_handler_other _ _ _ _ a hx]
          unfold ServerData.effHandler
          rw [hdh a]
        constructor
        · intro hch
          exact absurd hsame hch
        · intro hne h2
          rw [hsame] at h2
          exact absurd h2 hne
  | workTerminate id rest hpo hstop hq =>
    exact ⟨fun hch => absurd rfl hch, fun hne h2 => absurd h2 hne⟩
  | sendTerminate id hpo =>
    exact ⟨fun hch => absurd rfl hch, fun hne h2 => absurd h2 hne⟩

/-- Witness for C3: the first dispatch out of the fresh system. -/
theorem c3_witness :
    ((initSys.handle_tx 0 5 TxType.DEPOSIT).data.effHandler 0 ≠
        initSys.data.effHandler 0 →
      initSys.data.get_pending_tx 0 = 0 ∨
        (initSys.handle_tx 0 5 TxType.DEPOSIT).data.get_pending_tx 0 = 0) ∧
    (initSys.data.effHandler 0 ≠ INVALID_HANDLE →
      (initSys.handle_tx 0 5 TxType.DEPOSIT).data.effHandler 0 = INVALID_HANDLE →
      ∃ id tx rest, initSys.queues id = Message.NewTx tx :: rest ∧
        tx.account = 0 ∧
        (initSys.handle_tx 0 5 TxType.DEPOSIT).data.get_pending_tx 0 = 0) :=
  c3_affinity_release_invariant initSys (initSys.handle_tx 0 5 TxType.DEPOSIT)
    Relation.ReflTransGen.refl (Step.dispatch initSys 0 5 TxType.DEPOSIT rfl) 0
